import Mathlib

/-!
# lastore-apt-clean: eviction policy of the package-archive cache

A shallow embedding of `src/lastore-apt-clean/main.go`.

Modelling conventions.

* A Go `string` is a `List Char` (`GoString`): file names and command output are
  taken as UTF-8 text, so the rune-based library functions (`strings.TrimSpace`)
  and the byte-based ones with ASCII separators (`strings.Split`) act on the
  same sequence of code points. Byte lengths are UTF-8 lengths.
* A Go `error` is a value of `GoError`; `nil` is `none`.
* A call that may panic returns `Run α`: either `ret a` or `panic`.
* External processes (`exec.Command(...).Output()` and `.Run()`) and the
  clock are fields of an explicit environment `Env`, which stays the same
  during one run.
* The scan loop of `main` is the function `mainLoop`; what it does is the list
  of its `Event`s, which ends with `crash` when a panic kills the process. The
  listing it receives comes from `ioutil.ReadDir`, which sorts it by file name
  (`readDirSorted`).
* A `time.Time` is the instant it stands for, an `Int` of nanoseconds since the
  Unix epoch; the `int64` sums inside `time.Unix` wrap around (`wrap64`), and
  `Time.Sub` saturates to the range of `time.Duration`.
-/

set_option autoImplicit false

namespace LastoreAptClean

/-! ## Go values -/

abbrev GoString := List Char

/-- Go `error` values that the program can observe. -/
inductive GoError where
  /-- an error returned by `os/exec` (command not runnable, non-zero exit) -/
  | exec (code : Nat)
  /-- the value of `errors.New(text)` -/
  | new (text : String)
  /-- the value `bufio.ErrTooLong` -/
  | errTooLong
  deriving DecidableEq, Repr

/-- Outcome of a call that may panic at run time. -/
inductive Run (α : Type) where
  | ret (a : α)
  | panic
  deriving DecidableEq, Repr

/-! ## Library functions used by the program -/

/-- Go `strings.Split(s, sep)` for a one-byte separator `sep`. -/
def stringsSplit (sep : Char) : GoString → List GoString
  | [] => [[]]
  | c :: cs =>
    if c = sep then [] :: stringsSplit sep cs
    else
      match stringsSplit sep cs with
      | [] => [[c]]
      | p :: ps => (c :: p) :: ps

/-- Go `strings.SplitN(s, sep, 2)` for a one-byte separator `sep`. -/
def stringsSplitN2 (sep : Char) (s : GoString) : List GoString :=
  if sep ∈ s then [s.takeWhile (fun c => c != sep), (s.dropWhile (fun c => c != sep)).drop 1]
  else [s]

/-- Go `strings.HasSuffix`. -/
def stringsHasSuffix (s suffix : GoString) : Bool :=
  suffix.isSuffixOf s

/-- Go `strings.TrimSuffix`. -/
def stringsTrimSuffix (s suffix : GoString) : GoString :=
  if stringsHasSuffix s suffix then s.take (s.length - suffix.length) else s

/-- Go `strings.HasPrefix`. -/
def stringsHasPrefix (s pre : GoString) : Bool :=
  pre.isPrefixOf s

/-- Go `unicode.IsSpace`: the Unicode White_Space property. -/
def unicodeIsSpace (c : Char) : Bool :=
  let n := c.toNat
  (0x09 ≤ n && n ≤ 0x0d) || n == 0x20 || n == 0x85 || n == 0xa0 || n == 0x1680 ||
  (0x2000 ≤ n && n ≤ 0x200a) || n == 0x2028 || n == 0x2029 || n == 0x202f ||
  n == 0x205f || n == 0x3000

/-- Go `strings.TrimSpace`: `TrimRightFunc(TrimLeftFunc(s, IsSpace), IsSpace)`. -/
def stringsTrimSpace (s : GoString) : GoString :=
  (s.dropWhile unicodeIsSpace).rdropWhile unicodeIsSpace

/-- Go `filepath.Ext`: the suffix starting at the last dot of the last path element. -/
def filepathExt (path : GoString) : GoString :=
  let seg := path.reverse.takeWhile (fun c => c != '/')
  let pre := seg.takeWhile (fun c => c != '.')
  if pre.length < seg.length then '.' :: pre.reverse else []

/-- One element of the path in Go `filepath.Clean`; `stack` holds the elements kept
so far, the last one first. -/
def cleanStep (rooted : Bool) (stack : List GoString) (comp : GoString) : List GoString :=
  if comp = [] ∨ comp = ['.'] then stack
  else if comp = ['.', '.'] then
    match stack with
    | [] => if rooted then [] else [['.', '.']]
    | top :: rest => if top = ['.', '.'] then ['.', '.'] :: top :: rest else rest
  else comp :: stack

/-- Go `filepath.Clean` on a Unix path: the shortest lexically equivalent path. -/
def filepathClean (path : GoString) : GoString :=
  let rooted := path.head? == some '/'
  let stack := (stringsSplit '/' path).foldl (cleanStep rooted) []
  let body := List.intercalate ['/'] stack.reverse
  if rooted then '/' :: body
  else if body = [] then ['.']
  else body

/-- Go `filepath.Join`: the elements from the first non-empty one on, joined with
a slash and cleaned; the empty string when every element is empty. -/
def filepathJoin (elem : List GoString) : GoString :=
  match elem.dropWhile (fun e => e.isEmpty) with
  | [] => []
  | es => filepathClean (List.intercalate ['/'] es)

/-- Length in bytes of the UTF-8 encoding of a string. -/
def utf8Len (s : GoString) : Nat :=
  (s.map Char.utf8Size).sum

/-- The constant `bufio.MaxScanTokenSize`, the size limit of a `bufio.Scanner` buffer. -/
def maxScanTokenSize : Nat := 64 * 1024

/-- The lines `bufio.ScanLines` cuts the data into, before the trailing carriage
return is dropped: the pieces between newlines, without a final empty piece. -/
def scanRawLines (data : GoString) : List GoString :=
  let ls := stringsSplit '\n' data
  if ls.getLast? = some [] then ls.dropLast else ls

/-- The `dropCR` helper of `bufio.ScanLines`. -/
def dropCR (l : GoString) : GoString :=
  if l.getLast? = some '\r' then l.dropLast else l

/-- The value of a Go `int64` computation whose exact result is `x`: two's
complement wrap-around. -/
def wrap64 (x : Int) : Int :=
  (x + 9223372036854775808) % 18446744073709551616 - 9223372036854775808

/-- Go integer division by a positive constant: the quotient truncated toward zero. -/
def truncDiv (a b : Int) : Int :=
  if 0 ≤ a then a / b else -((-a) / b)

/-- The constant `unixToInternal` of package `time`: the seconds from year 1 to 1970. -/
def unixToInternal : Int := 62135596800

/-- The `unixTime` helper of package `time`: the seconds are kept as the `int64`
`sec + unixToInternal`. A `time.Time` is modelled by the instant it stands for,
in nanoseconds since the Unix epoch. -/
def unixTime (sec nsec : Int) : Int :=
  (wrap64 (sec + unixToInternal) - unixToInternal) * 1000000000 + nsec

/-- Go `time.Unix(sec, nsec)` on `int64` arguments: nanoseconds outside
`[0, 1e9)` are carried into the seconds, and every sum is an `int64`. -/
def timeUnix (sec nsec : Int) : Int :=
  if nsec < 0 ∨ nsec ≥ 1000000000 then
    let n := truncDiv nsec 1000000000
    let sec := wrap64 (sec + n)
    let nsec := nsec - n * 1000000000
    if nsec < 0 then unixTime (wrap64 (sec - 1)) (nsec + 1000000000)
    else unixTime sec nsec
  else unixTime sec nsec

/-- The smallest value of Go `time.Duration` (an `int64` of nanoseconds). -/
def minDuration : Int := -9223372036854775808

/-- The largest value of Go `time.Duration`. -/
def maxDuration : Int := 9223372036854775807

/-- Go `Time.Sub`: the difference in nanoseconds, saturated to the range of
`time.Duration`. -/
def timeSub (t u : Int) : Int :=
  let d := t - u
  if d < minDuration then minDuration
  else if d > maxDuration then maxDuration
  else d

/-! ## Environment -/

/-- The world outside the program: the resolved tool paths (the globals set at the
start of `main`), the external commands and the clock. -/
structure Env where
  binDpkg : GoString
  binDpkgQuery : GoString
  binAptCache : GoString
  binAptConfig : GoString
  /-- Result of `exec.Command(argv...).Output()`: standard output and error. -/
  cmdOutput : List GoString → GoString × Option GoError
  /-- Result of `exec.Command(argv...).Run()`. -/
  cmdRun : List GoString → Option GoError
  /-- The instant of the `time.Time` that `time.Now()` returns, in nanoseconds since
  the Unix epoch. -/
  now : Int

/-- Go `time.Since`. -/
def timeSince (env : Env) (t : Int) : Int :=
  timeSub env.now t

/-- What the program reads of an `os.FileInfo`: name, directory flag and the
status-change time of its `syscall.Stat_t`, two `int64` fields. -/
structure FileInfo where
  Name : GoString
  IsDir : Bool
  CtimSec : Int
  CtimNsec : Int
  deriving DecidableEq, Repr

/-! ## Filename parser -/

structure DebFileNameInfo where
  name : GoString
  version : GoString
  arch : GoString
  deriving DecidableEq, Repr

/-- `getDebFileNameInfo` of main.go; the `nil` result is `none`. -/
def getDebFileNameInfo (basename : GoString) : Option DebFileNameInfo :=
  let basename := stringsTrimSuffix basename ".deb".toList
  let parts := stringsSplit '_' basename
  match parts with
  | [p0, p1, p2] =>
    if p0 = [] then none
    else if p1 = [] then none
    else if p2 = [] then none
    else some { name := p0, version := p1, arch := p2 }
  | _ => none

/-! ## Version queries -/

/-- `getInstalledVersion` of main.go; reading `info.name` of a nil pointer panics. -/
def getInstalledVersion (env : Env) : Option DebFileNameInfo → Run (GoString × Option GoError)
  | none => Run.panic
  | some info =>
    let pkg := info.name ++ ":".toList ++ info.arch
    match env.cmdOutput
        [env.binDpkgQuery, "-f".toList, "$\x7bVersion\x7d".toList, "-W".toList, pkg] with
    | (_, some err) => Run.ret ([], some err)
    | (output, none) => Run.ret (stringsTrimSpace output, none)

/-- The constant `candidate` of `getCandidateVersion`. -/
def candidate : GoString := "Candidate:".toList

/-- The scanner loop of `getCandidateVersion` over the lines still to be read. -/
def candidateScan : List GoString → GoString × Option GoError
  | [] => ([], some (GoError.new "not found candidate"))
  | raw :: rest =>
    if maxScanTokenSize ≤ utf8Len raw then ([], some GoError.errTooLong)
    else
      let line := stringsTrimSpace (dropCR raw)
      if stringsHasPrefix line candidate then
        (stringsTrimSpace (line.drop candidate.length), none)
      else candidateScan rest

/-- `getCandidateVersion` of main.go; reading `info.name` of a nil pointer panics. -/
def getCandidateVersion (env : Env) : Option DebFileNameInfo → Run (GoString × Option GoError)
  | none => Run.panic
  | some info =>
    let pkg := info.name ++ ":".toList ++ info.arch
    match env.cmdOutput [env.binAptCache, "policy".toList, "--".toList, pkg] with
    | (_, some err) => Run.ret ([], some err)
    | (output, none) => Run.ret (candidateScan (scanRawLines output))

/-- `compareVersions` of main.go. -/
def compareVersions (env : Env) (ver1 op ver2 : GoString) : Bool :=
  let err := env.cmdRun [env.binDpkg, "--compare-versions".toList, ver1, op, ver2]
  err == none

/-- `getChangeTime` of main.go. -/
def getChangeTime (fileInfo : FileInfo) : Int :=
  timeUnix fileInfo.CtimSec fileInfo.CtimNsec

/-! ## Eviction policy -/

/-- The constant `maxElapsed`: `time.Hour * 24 * 6`, in nanoseconds. -/
def maxElapsed : Int := 3600000000000 * 24 * 6

/-- `shouldDelete` of main.go: the pair `(del, err)` it returns, or a panic. -/
def shouldDelete (env : Env) (fileInfo : FileInfo) : Run (Bool × Option GoError) :=
  let debInfo := getDebFileNameInfo fileInfo.Name
  match getInstalledVersion env debInfo with
  | Run.panic => Run.panic
  | Run.ret (installedVersion, _) =>
    if installedVersion ≠ [] then
      match debInfo with
      | none => Run.panic
      | some info =>
        if compareVersions env info.version "gt".toList installedVersion then
          match getCandidateVersion env debInfo with
          | Run.panic => Run.panic
          | Run.ret (_, some err) => Run.ret (false, some err)
          | Run.ret (candidateVersion, none) =>
            if candidateVersion ≠ info.version then Run.ret (true, none)
            else Run.ret (false, none)
        else Run.ret (true, none)
    else
      let debChangeTime := getChangeTime fileInfo
      let elapsed := timeSince env debChangeTime
      Run.ret (decide (elapsed > maxElapsed), none)

/-! ## Cache scan -/

/-- What the scan loop of `main` does, in order. -/
inductive Event where
  /-- `shouldDelete` is called on the file of that name -/
  | evaluate (name : GoString)
  /-- the error of `shouldDelete` is logged and the file is left in place -/
  | logError (err : GoError)
  /-- `deleteDeb` is called with that name -/
  | deleteDeb (name : GoString)
  /-- the process dies of a run-time panic -/
  | crash
  deriving DecidableEq, Repr

/-- The `for` loop of `main` over the directory listing. -/
def mainLoop (env : Env) : List FileInfo → List Event
  | [] => []
  | fileInfo :: rest =>
    if fileInfo.IsDir then mainLoop env rest
    else if filepathExt fileInfo.Name ≠ ".deb".toList then mainLoop env rest
    else
      Event.evaluate fileInfo.Name ::
        match shouldDelete env fileInfo with
        | Run.panic => [Event.crash]
        | Run.ret (_, some err) => Event.logError err :: mainLoop env rest
        | Run.ret (del, none) =>
          if del then Event.deleteDeb fileInfo.Name :: mainLoop env rest
          else mainLoop env rest

/-- Go `<` on strings: the lexicographic order. -/
def stringLess : GoString → GoString → Bool
  | [], [] => false
  | [], _ :: _ => true
  | _ :: _, [] => false
  | a :: as, b :: bs =>
    if a < b then true
    else if b < a then false
    else stringLess as bs

/-- The order of a listing returned by `ioutil.ReadDir`: sorted by file name. -/
def readDirSorted : List FileInfo → Bool
  | [] => true
  | [_] => true
  | a :: b :: rest => !stringLess b.Name a.Name && readDirSorted (b :: rest)

/-- The names passed to `deleteDeb`, in order. -/
def deletions : List Event → List GoString
  | [] => []
  | Event.deleteDeb name :: rest => name :: deletions rest
  | _ :: rest => deletions rest

/-- The names of the files `shouldDelete` was called on, in order. -/
def evaluations : List Event → List GoString
  | [] => []
  | Event.evaluate name :: rest => name :: evaluations rest
  | _ :: rest => evaluations rest

/-! ## Cache directory -/

/-- A Go `map[string]string`: a missing key reads as the empty string. -/
abbrev GoMap := GoString → GoString

/-- The assignment `m[k] = v`. -/
def GoMap.set (m : GoMap) (k v : GoString) : GoMap :=
  fun k' => if k' = k then v else m k'

/-- The body of the loop over the lines in `getArchivesDir`. -/
def archivesStep (tempMap : GoMap) (line : GoString) : GoMap :=
  match stringsSplitN2 '=' line with
  | [k, v] =>
    if k = "Dir".toList ∨ k = "Dir::Cache".toList ∨ k = "Dir::Cache::archives".toList then
      tempMap.set k v
    else tempMap
  | _ => tempMap

/-- `getArchivesDir` of main.go. -/
def getArchivesDir (env : Env) : GoString × Option GoError :=
  match env.cmdOutput
      [env.binAptConfig, "--format".toList, "%f=%v%n".toList, "dump".toList, "Dir".toList] with
  | (_, some err) => ([], some err)
  | (output, none) =>
    let lines := stringsSplit '\n' output
    let tempMap := lines.foldl archivesStep (fun _ => [])
    let dir := tempMap "Dir".toList
    if dir = [] then ([], some (GoError.new "apt-config Dir is empty"))
    else
      let dirCache := tempMap "Dir::Cache".toList
      if dirCache = [] then ([], some (GoError.new "apt-config Dir::Cache is empty"))
      else
        let dirCacheArchives := tempMap "Dir::Cache::archives".toList
        if dirCacheArchives = [] then
          ([], some (GoError.new "apt-config Dir::Cache::Archives is empty"))
        else (filepathJoin [dir, dirCache, dirCacheArchives], none)

/-- Following the spec: the value of a key in the `apt-config dump` output is the
text after the first `=` of the last line whose text before that `=` is exactly
the key; a key with no such line has the empty value. -/
def specKeyValue (key : GoString) (output : GoString) : GoString :=
  match (stringsSplit '\n' output).reverse.find?
      (fun line => decide ('=' ∈ line) && (line.takeWhile (fun c => c != '=') == key)) with
  | some line => (line.dropWhile (fun c => c != '=')).drop 1
  | none => []

/-! ## Sample environments -/

/-- A sample `apt-config dump Dir` output, as in the comment above `getArchivesDir`. -/
def sampleAptConfig : GoString :=
  ("Dir=/\nDir::Cache=var/cache/apt\nDir::Cache::archives=archives/\n" ++
   "Dir::Cache::srcpkgcache=srcpkgcache.bin\nDir::Cache::pkgcache=pkgcache.bin\n").toList

/-- A sample machine: `dpkg-query` reports version `instVer` for every package when
that is non-empty and fails otherwise, `apt-cache policy` prints `policyOut`
except for `bad:amd64`, for which it fails, and every version comparison
answers `newer`. -/
def sampleEnv (instVer policyOut : GoString) (newer : Bool) (now : Int) : Env where
  binDpkg := "/usr/bin/dpkg".toList
  binDpkgQuery := "/usr/bin/dpkg-query".toList
  binAptCache := "/usr/bin/apt-cache".toList
  binAptConfig := "/usr/bin/apt-config".toList
  cmdOutput := fun argv =>
    if argv.head? = some "/usr/bin/dpkg-query".toList then
      if instVer = [] then ([], some (GoError.exec 1)) else (instVer, none)
    else if argv.head? = some "/usr/bin/apt-cache".toList then
      if argv.getLast? = some "bad:amd64".toList then ([], some (GoError.exec 100))
      else (policyOut, none)
    else if argv.head? = some "/usr/bin/apt-config".toList then (sampleAptConfig, none)
    else ([], some (GoError.exec 127))
  cmdRun := fun _ => if newer then none else some (GoError.exec 1)
  now := now

/-- A regular file of the cache with status-change time `sec` seconds after the epoch. -/
def sampleFile (name : String) (sec : Int) : FileInfo :=
  { Name := name.toList, IsDir := false, CtimSec := sec, CtimNsec := 0 }

/-- Typical `apt-cache policy` output with the given candidate version. -/
def samplePolicy (cand : String) : GoString :=
  ("foo:\n  Installed: 1.0\n  Candidate: " ++ cand ++ "\n  Version table:\n").toList

/-! ## Facts about the library functions -/

theorem stringsSplit_ne_nil (sep : Char) (s : GoString) : stringsSplit sep s ≠ [] := by
  cases s with
  | nil => simp [stringsSplit]
  | cons c cs =>
    unfold stringsSplit
    split_ifs
    · simp
    · split <;> simp

/-- `strings.Split` yields one segment more than there are separators. -/
theorem stringsSplit_length (sep : Char) (s : GoString) :
    (stringsSplit sep s).length = s.count sep + 1 := by
  induction s with
  | nil => simp [stringsSplit]
  | cons c cs ih =>
    unfold stringsSplit
    by_cases h : c = sep
    · subst h
      simp [ih]
    · have hne : (c == sep) = false := by simpa using h
      rw [if_neg h, List.count_cons, hne]
      cases hs : stringsSplit sep cs with
      | nil => exact absurd hs (stringsSplit_ne_nil sep cs)
      | cons q qs =>
        rw [hs] at ih
        simpa using ih

theorem stringsSplit_of_not_mem (sep : Char) (s : GoString) (h : sep ∉ s) :
    stringsSplit sep s = [s] := by
  induction s with
  | nil => simp [stringsSplit]
  | cons c cs ih =>
    have hc : c ≠ sep := fun e => h (by simp [e])
    have hcs : sep ∉ cs := fun e => h (by simp [e])
    unfold stringsSplit
    rw [if_neg hc, ih hcs]

theorem stringsSplit_cons_of_ne (sep c : Char) (cs p : GoString) (ps : List GoString)
    (hc : c ≠ sep) (hs : stringsSplit sep cs = p :: ps) :
    stringsSplit sep (c :: cs) = (c :: p) :: ps := by
  conv_lhs => unfold stringsSplit
  rw [if_neg hc, hs]

theorem stringsSplit_cons_self (sep : Char) (cs : GoString) :
    stringsSplit sep (sep :: cs) = [] :: stringsSplit sep cs := by
  conv_lhs => unfold stringsSplit
  rw [if_pos rfl]

theorem stringsSplit_append (sep : Char) (s t : GoString) (h : sep ∉ s) :
    stringsSplit sep (s ++ sep :: t) = s :: stringsSplit sep t := by
  induction s with
  | nil => exact stringsSplit_cons_self sep t
  | cons c cs ih =>
    have hc : c ≠ sep := fun e => h (by simp [e])
    have hcs : sep ∉ cs := fun e => h (by simp [e])
    rw [List.cons_append]
    exact stringsSplit_cons_of_ne sep c _ _ _ hc (ih hcs)

theorem stringsTrimSuffix_append (s suffix : GoString) :
    stringsTrimSuffix (s ++ suffix) suffix = s := by
  unfold stringsTrimSuffix stringsHasSuffix
  have h : suffix.isSuffixOf (s ++ suffix) = true := by
    rw [List.isSuffixOf_iff_suffix]
    exact List.suffix_append s suffix
  rw [if_pos h]
  simp

/-! ## Filename parser -/

/-- C6: a base name whose text without one trailing `.deb` does not split on `_`
into exactly three segments, or has an empty segment among them, yields no
identity. -/
theorem getDebFileNameInfo_none_of_malformed (basename : GoString)
    (h : (stringsSplit '_' (stringsTrimSuffix basename ".deb".toList)).length ≠ 3 ∨
      [] ∈ stringsSplit '_' (stringsTrimSuffix basename ".deb".toList)) :
    getDebFileNameInfo basename = none := by
  unfold getDebFileNameInfo
  dsimp only
  generalize stringsSplit '_' (stringsTrimSuffix basename ".deb".toList) = parts at h ⊢
  match parts, h with
  | [], _ => rfl
  | [_], _ => rfl
  | [_, _], _ => rfl
  | _ :: _ :: _ :: _ :: _, _ => rfl
  | [p0, p1, p2], h =>
    rcases h with h | h
    · simp at h
    · simp only [List.mem_cons, List.mem_singleton, List.not_mem_nil, or_false] at h
      rcases h with h | h | h
      · simp [← h]
      · by_cases h0 : p0 = [] <;> simp [← h, h0]
      · by_cases h0 : p0 = [] <;> by_cases h1 : p1 = [] <;> simp [← h, h0, h1]

theorem getDebFileNameInfo_none_of_malformed_witness :
    ((stringsSplit '_' (stringsTrimSuffix "a__b.deb".toList ".deb".toList)).length ≠ 3 ∨
      [] ∈ stringsSplit '_' (stringsTrimSuffix "a__b.deb".toList ".deb".toList)) ∧
    getDebFileNameInfo "a__b.deb".toList = none :=
  ⟨by decide, getDebFileNameInfo_none_of_malformed "a__b.deb".toList (by decide)⟩

/-- C7: the name `n_v_a.deb` built from non-empty segments without `_` parses to the
identity with exactly these three segments. -/
theorem getDebFileNameInfo_roundtrip (n v a : GoString)
    (hn : n ≠ []) (hv : v ≠ []) (ha : a ≠ [])
    (hn' : '_' ∉ n) (hv' : '_' ∉ v) (ha' : '_' ∉ a) :
    getDebFileNameInfo (n ++ "_".toList ++ v ++ "_".toList ++ a ++ ".deb".toList) =
      some { name := n, version := v, arch := a } := by
  have e : n ++ "_".toList ++ v ++ "_".toList ++ a = n ++ '_' :: (v ++ '_' :: a) := by
    simp
  unfold getDebFileNameInfo
  dsimp only
  rw [stringsTrimSuffix_append, e, stringsSplit_append _ _ _ hn',
    stringsSplit_append _ _ _ hv', stringsSplit_of_not_mem _ _ ha']
  simp [hn, hv, ha]

theorem getDebFileNameInfo_roundtrip_witness :
    getDebFileNameInfo
        ("foo".toList ++ "_".toList ++ "2.0-1".toList ++ "_".toList ++ "amd64".toList ++
          ".deb".toList) =
      some { name := "foo".toList, version := "2.0-1".toList, arch := "amd64".toList } :=
  getDebFileNameInfo_roundtrip "foo".toList "2.0-1".toList "amd64".toList
    (by decide) (by decide) (by decide) (by decide) (by decide) (by decide)

/-! ## Eviction policy -/

theorem getInstalledVersion_some (env : Env) (info : DebFileNameInfo) :
    ∃ r, getInstalledVersion env (some info) = Run.ret r := by
  unfold getInstalledVersion
  dsimp only
  split <;> exact ⟨_, rfl⟩

theorem getCandidateVersion_some (env : Env) (info : DebFileNameInfo) :
    ∃ r, getCandidateVersion env (some info) = Run.ret r := by
  unfold getCandidateVersion
  dsimp only
  split <;> exact ⟨_, rfl⟩

theorem shouldDelete_panic_of_unparsed (env : Env) (fileInfo : FileInfo)
    (h : getDebFileNameInfo fileInfo.Name = none) : shouldDelete env fileInfo = Run.panic := by
  unfold shouldDelete
  dsimp only
  rw [h]
  rfl

theorem timeSub_gt_maxElapsed (t u : Int) : timeSub t u > maxElapsed ↔ t - u > maxElapsed := by
  unfold timeSub maxElapsed minDuration maxDuration
  dsimp only
  split_ifs <;> omega

/-- C1, at the failing input: for the cache file `malformed.deb`, whatever the
environment, `shouldDelete` panics, and the scan of the name-sorted listing
`malformed.deb`, `zoo_1.0_amd64.deb` stops there: the file after it is never
evaluated. -/
theorem shouldDelete_malformed_panics (env : Env) :
    shouldDelete env (sampleFile "malformed.deb" 0) = Run.panic ∧
    readDirSorted [sampleFile "malformed.deb" 0, sampleFile "zoo_1.0_amd64.deb" 0] = true ∧
    mainLoop env [sampleFile "malformed.deb" 0, sampleFile "zoo_1.0_amd64.deb" 0] =
      [Event.evaluate "malformed.deb".toList, Event.crash] := by
  have h : shouldDelete env (sampleFile "malformed.deb" 0) = Run.panic :=
    shouldDelete_panic_of_unparsed env _ (by decide)
  refine ⟨h, by decide, ?_⟩
  have hd : (sampleFile "malformed.deb" 0).IsDir = false := rfl
  have he : ¬ filepathExt (sampleFile "malformed.deb" 0).Name ≠ ".deb".toList := by decide
  rw [mainLoop, hd, if_neg (by simp), if_neg he, h]
  rfl

/-- C2: for a parsed identity whose installed version is non-empty and for which the
comparator does not report the file's version greater, `shouldDelete` returns
`(true, nil)`; nothing is assumed about the candidate query. -/
theorem shouldDelete_not_newer (env : Env) (fileInfo : FileInfo) (info : DebFileNameInfo)
    (installed : GoString) (ierr : Option GoError)
    (hp : getDebFileNameInfo fileInfo.Name = some info)
    (hi : getInstalledVersion env (some info) = Run.ret (installed, ierr))
    (hne : installed ≠ [])
    (hc : compareVersions env info.version "gt".toList installed = false) :
    shouldDelete env fileInfo = Run.ret (true, none) := by
  unfold shouldDelete
  dsimp only
  rw [hp, hi]
  dsimp only
  generalize compareVersions env info.version "gt".toList installed = g at hc ⊢
  subst hc
  simp [hne]

theorem shouldDelete_not_newer_witness :
    shouldDelete (sampleEnv "1.0".toList [] false 0) (sampleFile "bad_1.0_amd64.deb" 0) =
      Run.ret (true, none) :=
  shouldDelete_not_newer (sampleEnv "1.0".toList [] false 0) (sampleFile "bad_1.0_amd64.deb" 0)
    { name := "bad".toList, version := "1.0".toList, arch := "amd64".toList }
    "1.0".toList none (by decide) (by decide) (by decide) (by decide)

/-- C3: for a parsed identity whose installed version is non-empty, whose version the
comparator reports greater, and whose candidate query succeeds with `c`,
`shouldDelete` returns `(false, nil)` when `c` equals the file's version and
`(true, nil)` when it differs. -/
theorem shouldDelete_newer (env : Env) (fileInfo : FileInfo) (info : DebFileNameInfo)
    (installed c : GoString) (ierr : Option GoError)
    (hp : getDebFileNameInfo fileInfo.Name = some info)
    (hi : getInstalledVersion env (some info) = Run.ret (installed, ierr))
    (hne : installed ≠ [])
    (hc : compareVersions env info.version "gt".toList installed = true)
    (hq : getCandidateVersion env (some info) = Run.ret (c, none)) :
    (c = info.version → shouldDelete env fileInfo = Run.ret (false, none)) ∧
    (c ≠ info.version → shouldDelete env fileInfo = Run.ret (true, none)) := by
  unfold shouldDelete
  dsimp only
  rw [hp, hi]
  dsimp only
  generalize compareVersions env info.version "gt".toList installed = g at hc ⊢
  subst hc
  simp only [ne_eq, hne, not_false_eq_true, if_true, hq]
  constructor <;> intro h <;> simp [h]

theorem shouldDelete_newer_witness :
    ("2.0".toList = "2.0".toList →
      shouldDelete (sampleEnv "1.0".toList (samplePolicy "2.0") true 0)
        (sampleFile "foo_2.0_amd64.deb" 0) = Run.ret (false, none)) ∧
    ("2.0".toList ≠ "2.0".toList →
      shouldDelete (sampleEnv "1.0".toList (samplePolicy "2.0") true 0)
        (sampleFile "foo_2.0_amd64.deb" 0) = Run.ret (true, none)) :=
  shouldDelete_newer (sampleEnv "1.0".toList (samplePolicy "2.0") true 0)
    (sampleFile "foo_2.0_amd64.deb" 0)
    { name := "foo".toList, version := "2.0".toList, arch := "amd64".toList }
    "1.0".toList "2.0".toList none (by decide) (by decide) (by decide) (by decide) (by decide)

/-- `time.Unix` stands for the instant `sec` seconds and `nsec` nanoseconds after the
epoch whenever the seconds it keeps, `sec` plus the whole seconds of `nsec` plus
`unixToInternal`, fit in an `int64`. -/
theorem timeUnix_exact (sec nsec : Int)
    (h0 : -9223372036854775808 ≤ sec + nsec / 1000000000 + 62135596800)
    (h1 : sec + nsec / 1000000000 + 62135596800 ≤ 9223372036854775807) :
    timeUnix sec nsec = sec * 1000000000 + nsec := by
  unfold timeUnix unixTime unixToInternal truncDiv wrap64
  dsimp only
  split_ifs <;> omega

theorem shouldDelete_of_not_installed (env : Env) (fileInfo : FileInfo) (info : DebFileNameInfo)
    (ierr : Option GoError)
    (hp : getDebFileNameInfo fileInfo.Name = some info)
    (hi : getInstalledVersion env (some info) = Run.ret ([], ierr)) :
    shouldDelete env fileInfo =
      Run.ret (decide (env.now - getChangeTime fileInfo > 6 * 24 * 3600 * 1000000000), none) := by
  unfold shouldDelete
  dsimp only
  rw [hp, hi]
  simp only [ne_eq, not_true_eq_false, if_false]
  have h := timeSub_gt_maxElapsed env.now (getChangeTime fileInfo)
  unfold timeSince
  congr 2
  simp only [decide_eq_decide]
  rw [h]
  unfold maxElapsed
  norm_num

/-- C4, at the counterexample: a status-change time of `MaxInt64` seconds lies far
after the clock reading, so the elapsed time is not more than six days, but
`time.Unix` wraps it into the far past and `shouldDelete` answers Delete. -/
theorem shouldDelete_wrapped_ctime :
    getDebFileNameInfo (sampleFile "bar_1.0_amd64.deb" 9223372036854775807).Name =
      some { name := "bar".toList, version := "1.0".toList, arch := "amd64".toList } ∧
    getInstalledVersion (sampleEnv [] [] true 1700000000000000000)
      (some { name := "bar".toList, version := "1.0".toList, arch := "amd64".toList }) =
      Run.ret ([], some (GoError.exec 1)) ∧
    shouldDelete (sampleEnv [] [] true 1700000000000000000)
      (sampleFile "bar_1.0_amd64.deb" 9223372036854775807) = Run.ret (true, none) ∧
    ¬ ((sampleEnv [] [] true 1700000000000000000).now -
        ((sampleFile "bar_1.0_amd64.deb" 9223372036854775807).CtimSec * 1000000000 +
          (sampleFile "bar_1.0_amd64.deb" 9223372036854775807).CtimNsec) >
      6 * 24 * 3600 * 1000000000) := by
  decide

/-- C4, amended: for a parsed identity with no installed version (the query failed
or gave an empty string), `shouldDelete` returns no error; and when the seconds
that `time.Unix` keeps for the status-change time (its seconds, plus the whole
seconds of its nanoseconds, plus 62135596800) fit in an `int64`, the verdict is
Delete exactly when the time from the status-change timestamp to now is
strictly more than six days. -/
theorem shouldDelete_not_installed (env : Env) (fileInfo : FileInfo) (info : DebFileNameInfo)
    (ierr : Option GoError)
    (hp : getDebFileNameInfo fileInfo.Name = some info)
    (hi : getInstalledVersion env (some info) = Run.ret ([], ierr)) :
    (∃ del, shouldDelete env fileInfo = Run.ret (del, none)) ∧
    (-9223372036854775808 ≤ fileInfo.CtimSec + fileInfo.CtimNsec / 1000000000 + 62135596800 →
      fileInfo.CtimSec + fileInfo.CtimNsec / 1000000000 + 62135596800 ≤ 9223372036854775807 →
      shouldDelete env fileInfo =
        Run.ret (decide (env.now - (fileInfo.CtimSec * 1000000000 + fileInfo.CtimNsec) >
          6 * 24 * 3600 * 1000000000), none)) := by
  have h := shouldDelete_of_not_installed env fileInfo info ierr hp hi
  refine ⟨⟨_, h⟩, ?_⟩
  intro h0 h1
  rw [h]
  unfold getChangeTime
  rw [timeUnix_exact _ _ h0 h1]

theorem shouldDelete_not_installed_witness :
    shouldDelete (sampleEnv [] [] true (6 * 24 * 3600 * 1000000000))
        (sampleFile "bar_1.0_amd64.deb" 0) = Run.ret (false, none) ∧
    shouldDelete (sampleEnv [] [] true (6 * 24 * 3600 * 1000000000 + 1))
        (sampleFile "bar_1.0_amd64.deb" 0) = Run.ret (true, none) :=
  ⟨(shouldDelete_not_installed (sampleEnv [] [] true (6 * 24 * 3600 * 1000000000))
      (sampleFile "bar_1.0_amd64.deb" 0)
      { name := "bar".toList, version := "1.0".toList, arch := "amd64".toList }
      (some (GoError.exec 1)) (by decide) (by decide)).2
      (by decide) (by decide),
   (shouldDelete_not_installed (sampleEnv [] [] true (6 * 24 * 3600 * 1000000000 + 1))
      (sampleFile "bar_1.0_amd64.deb" 0)
      { name := "bar".toList, version := "1.0".toList, arch := "amd64".toList }
      (some (GoError.exec 1)) (by decide) (by decide)).2
      (by decide) (by decide)⟩

/-- C5: for a parsed identity, `shouldDelete` returns normally, and it returns an
error `e` exactly when the installed version is non-empty, the comparator
reports the file's version greater and the candidate query fails with `e`; the
boolean returned with it is `false`. -/
theorem shouldDelete_error_iff (env : Env) (fileInfo : FileInfo) (info : DebFileNameInfo)
    (installed : GoString) (ierr : Option GoError) (b : Bool) (e : GoError)
    (hp : getDebFileNameInfo fileInfo.Name = some info)
    (hi : getInstalledVersion env (some info) = Run.ret (installed, ierr)) :
    (∃ r, shouldDelete env fileInfo = Run.ret r) ∧
    (shouldDelete env fileInfo = Run.ret (b, some e) ↔
      (b = false ∧ installed ≠ [] ∧
        compareVersions env info.version "gt".toList installed = true ∧
        ∃ c, getCandidateVersion env (some info) = Run.ret (c, some e))) := by
  obtain ⟨⟨c, cerr⟩, hq⟩ := getCandidateVersion_some env info
  unfold shouldDelete
  dsimp only
  rw [hp, hi]
  dsimp only
  rw [hq]
  generalize compareVersions env info.version "gt".toList installed = g
  by_cases hne : installed = []
  · simp [hne]
  · cases g with
    | false => simp [hne]
    | true =>
      cases cerr with
      | none =>
        by_cases hv : c = info.version <;> simp [hne, hv]
      | some err =>
        simp only [ne_eq, hne, not_false_eq_true, if_true, Run.ret.injEq, Prod.mk.injEq,
          Option.some.injEq, exists_eq_left, true_and, exists_const]
        refine ⟨⟨_, rfl⟩, ?_⟩
        constructor
        · rintro ⟨h1, h2⟩
          exact ⟨h1.symm, c, rfl, h2⟩
        · rintro ⟨h1, _, _, h2⟩
          exact ⟨h1.symm, h2⟩

theorem shouldDelete_error_iff_witness :
    (∃ r, shouldDelete (sampleEnv "1.0".toList [] true 0) (sampleFile "bad_2.0_amd64.deb" 0) =
      Run.ret r) ∧
    (shouldDelete (sampleEnv "1.0".toList [] true 0) (sampleFile "bad_2.0_amd64.deb" 0) =
        Run.ret (false, some (GoError.exec 100)) ↔
      (false = false ∧ "1.0".toList ≠ [] ∧
        compareVersions (sampleEnv "1.0".toList [] true 0) "2.0".toList "gt".toList
          "1.0".toList = true ∧
        ∃ c, getCandidateVersion (sampleEnv "1.0".toList [] true 0)
          (some { name := "bad".toList, version := "2.0".toList, arch := "amd64".toList }) =
            Run.ret (c, some (GoError.exec 100)))) :=
  shouldDelete_error_iff (sampleEnv "1.0".toList [] true 0) (sampleFile "bad_2.0_amd64.deb" 0)
    { name := "bad".toList, version := "2.0".toList, arch := "amd64".toList }
    "1.0".toList none false (GoError.exec 100) (by decide) (by decide)

/-! ## Cache scan -/

/-- When no `.deb` file of the listing makes `shouldDelete` panic, the scan never
crashes, evaluates every regular `.deb` entry in listing order, and calls
`deleteDeb` exactly for those of them with verdict `(true, nil)`. -/
theorem mainLoop_of_no_panic (env : Env) (files : List FileInfo)
    (h : ∀ fi ∈ files, fi.IsDir = false → filepathExt fi.Name = ".deb".toList →
      shouldDelete env fi ≠ Run.panic) :
    Event.crash ∉ mainLoop env files ∧
    evaluations (mainLoop env files) =
      (files.filter (fun fi => !fi.IsDir && (filepathExt fi.Name == ".deb".toList))).map
        FileInfo.Name ∧
    deletions (mainLoop env files) =
      (files.filter (fun fi => !fi.IsDir && (filepathExt fi.Name == ".deb".toList) &&
        (shouldDelete env fi == Run.ret (true, none)))).map FileInfo.Name := by
  induction files with
  | nil => simp [mainLoop, evaluations, deletions]
  | cons fi rest ih =>
    have ih := ih (fun x hx => h x (List.mem_cons_of_mem _ hx))
    obtain ⟨ih1, ih2, ih3⟩ := ih
    have hfi := h fi (List.mem_cons_self _ _)
    unfold mainLoop
    by_cases hd : fi.IsDir = true
    · simp [hd, ih1, ih2, ih3]
    · have hd' : fi.IsDir = false := by simpa using hd
      by_cases he : filepathExt fi.Name = ".deb".toList
      · have hnp := hfi hd' he
        rw [if_neg hd, if_neg (not_not.mpr he)]
        cases hs : shouldDelete env fi with
        | panic => exact absurd hs hnp
        | ret r =>
          obtain ⟨del, err⟩ := r
          cases err with
          | some e =>
            simp [hd', he, hs, ih1, ih2, ih3, evaluations, deletions]
          | none =>
            cases del <;> simp [hd', he, hs, ih1, ih2, ih3, evaluations, deletions]
      · rw [if_neg hd, if_pos he]
        have he' : ¬ filepathExt fi.Name = ['.', 'd', 'e', 'b'] := he
        simp [hd', he', ih1, ih2, ih3]

/-- C9, at the failing input: the listing `bad_2.0_amd64.deb`, `malformed.deb`,
`zoo_2.0_amd64.deb` is in the name order of `ioutil.ReadDir`; its first entry
makes `shouldDelete` return an error, the second makes it panic, and the third,
for which `shouldDelete` gives `(true, nil)`, is neither evaluated nor deleted. -/
theorem mainLoop_stops_at_malformed :
    readDirSorted [sampleFile "bad_2.0_amd64.deb" 0, sampleFile "malformed.deb" 0,
      sampleFile "zoo_2.0_amd64.deb" 0] = true ∧
    shouldDelete (sampleEnv "1.0".toList (samplePolicy "3.0") true 0)
        (sampleFile "bad_2.0_amd64.deb" 0) = Run.ret (false, some (GoError.exec 100)) ∧
    shouldDelete (sampleEnv "1.0".toList (samplePolicy "3.0") true 0)
        (sampleFile "zoo_2.0_amd64.deb" 0) = Run.ret (true, none) ∧
    mainLoop (sampleEnv "1.0".toList (samplePolicy "3.0") true 0)
        [sampleFile "bad_2.0_amd64.deb" 0, sampleFile "malformed.deb" 0,
          sampleFile "zoo_2.0_amd64.deb" 0] =
      [Event.evaluate "bad_2.0_amd64.deb".toList, Event.logError (GoError.exec 100),
        Event.evaluate "malformed.deb".toList, Event.crash] ∧
    evaluations (mainLoop (sampleEnv "1.0".toList (samplePolicy "3.0") true 0)
        [sampleFile "bad_2.0_amd64.deb" 0, sampleFile "malformed.deb" 0,
          sampleFile "zoo_2.0_amd64.deb" 0]) =
      ["bad_2.0_amd64.deb".toList, "malformed.deb".toList] ∧
    deletions (mainLoop (sampleEnv "1.0".toList (samplePolicy "3.0") true 0)
        [sampleFile "bad_2.0_amd64.deb" 0, sampleFile "malformed.deb" 0,
          sampleFile "zoo_2.0_amd64.deb" 0]) = [] := by
  decide

/-! ## Candidate version -/

theorem stringsTrimSpace_concat_space (l : GoString) (c : Char) (hc : unicodeIsSpace c = true) :
    stringsTrimSpace (l ++ [c]) = stringsTrimSpace l := by
  unfold stringsTrimSpace
  induction l with
  | nil => simp [List.dropWhile, hc, List.rdropWhile]
  | cons a l ih =>
    by_cases ha : unicodeIsSpace a = true
    · simpa [List.dropWhile, ha] using ih
    · have ha' : unicodeIsSpace a = false := by simpa using ha
      rw [List.cons_append, List.dropWhile_cons, List.dropWhile_cons]
      simp only [ha', Bool.false_eq_true, if_false]
      rw [← List.cons_append]
      exact List.rdropWhile_concat_pos _ _ _ hc

theorem stringsTrimSpace_dropCR (l : GoString) :
    stringsTrimSpace (dropCR l) = stringsTrimSpace l := by
  unfold dropCR
  split_ifs with h
  · have hl : l = l.dropLast ++ ['\r'] := by
      have hne : l ≠ [] := by
        intro e
        simp [e] at h
      have h2 := List.dropLast_append_getLast hne
      rw [List.getLast?_eq_getLast _ hne] at h
      have h3 : l.getLast hne = '\r' := by simpa using h
      rw [h3] at h2
      exact h2.symm
    conv_rhs => rw [hl]
    exact (stringsTrimSpace_concat_space _ _ (by decide)).symm
  · rfl

theorem candidateScan_ok (ls : List GoString) (v : GoString)
    (h : candidateScan ls = (v, none)) :
    ∃ pre l post, ls = pre ++ l :: post ∧
      (∀ x ∈ pre, stringsHasPrefix (stringsTrimSpace x) candidate = false) ∧
      stringsHasPrefix (stringsTrimSpace l) candidate = true ∧
      (∀ x ∈ pre, utf8Len x < maxScanTokenSize) ∧ utf8Len l < maxScanTokenSize ∧
      v = stringsTrimSpace ((stringsTrimSpace l).drop candidate.length) := by
  induction ls with
  | nil => simp [candidateScan] at h
  | cons raw rest ih =>
    unfold candidateScan at h
    dsimp only at h
    rw [stringsTrimSpace_dropCR] at h
    split_ifs at h with h1 h2
    · simp at h
    · refine ⟨[], raw, rest, rfl, by simp, h2, by simp, by omega, ?_⟩
      simpa using (congrArg Prod.fst h).symm
    · obtain ⟨pre, l, post, e, hpre, hl, hlen, hllen, hv⟩ := ih h
      refine ⟨raw :: pre, l, post, by simp [e], ?_, hl, ?_, hllen, hv⟩
      · intro x hx
        rcases List.mem_cons.mp hx with hx | hx
        · subst hx
          simpa using h2
        · exact hpre x hx
      · intro x hx
        rcases List.mem_cons.mp hx with hx | hx
        · subst hx
          omega
        · exact hlen x hx

theorem candidateScan_first (pre : List GoString) (l : GoString) (post : List GoString)
    (hpre : ∀ x ∈ pre, stringsHasPrefix (stringsTrimSpace x) candidate = false)
    (hl : stringsHasPrefix (stringsTrimSpace l) candidate = true)
    (hlen : ∀ x ∈ pre, utf8Len x < maxScanTokenSize) (hllen : utf8Len l < maxScanTokenSize) :
    candidateScan (pre ++ l :: post) =
      (stringsTrimSpace ((stringsTrimSpace l).drop candidate.length), none) := by
  induction pre with
  | nil =>
    rw [List.nil_append]
    unfold candidateScan
    dsimp only
    rw [stringsTrimSpace_dropCR, if_neg (by omega), if_pos hl]
  | cons raw rest ih =>
    have h1 := hpre raw (List.mem_cons_self _ _)
    have h2 := hlen raw (List.mem_cons_self _ _)
    rw [List.cons_append]
    unfold candidateScan
    dsimp only
    rw [stringsTrimSpace_dropCR, if_neg (by omega), h1, if_neg (by simp)]
    exact ih (fun x hx => hpre x (List.mem_cons_of_mem _ hx))
      (fun x hx => hlen x (List.mem_cons_of_mem _ hx))

theorem candidateScan_error (ls : List GoString)
    (h : ∀ x ∈ ls, stringsHasPrefix (stringsTrimSpace x) candidate = false) :
    ∃ e, candidateScan ls = ([], some e) := by
  induction ls with
  | nil => exact ⟨_, rfl⟩
  | cons raw rest ih =>
    unfold candidateScan
    dsimp only
    rw [stringsTrimSpace_dropCR]
    split_ifs with h1 h2
    · exact ⟨_, rfl⟩
    · rw [h raw (List.mem_cons_self _ _)] at h2
      exact absurd h2 (by simp)
    · exact ih (fun x hx => h x (List.mem_cons_of_mem _ hx))

theorem scanRawLines_cases (data : GoString) :
    scanRawLines data = stringsSplit '\n' data ∨
    stringsSplit '\n' data = scanRawLines data ++ [[]] := by
  unfold scanRawLines
  dsimp only
  split_ifs with h
  · right
    have hne := stringsSplit_ne_nil '\n' data
    have h2 := List.dropLast_append_getLast hne
    rw [List.getLast?_eq_getLast _ hne] at h
    have h3 : (stringsSplit '\n' data).getLast hne = [] := by simpa using h
    rw [h3] at h2
    exact h2.symm
  · left
    rfl

/-- C8, at the counterexample: on a policy output whose `Candidate:` line carries no
version, `getCandidateVersion` succeeds with the empty string. -/
theorem getCandidateVersion_empty_success :
    getCandidateVersion
        (sampleEnv "1.0".toList "foo:\n  Installed: 1.0\n  Candidate:\n".toList true 0)
        (some { name := "foo".toList, version := "2.0".toList, arch := "amd64".toList }) =
      Run.ret ([], none) := by
  decide

theorem scanRawLines_decompose (out : GoString) (pre : List GoString) (l : GoString)
    (post : List GoString) (e : stringsSplit '\n' out = pre ++ l :: post) (hl : l ≠ []) :
    ∃ post', scanRawLines out = pre ++ l :: post' := by
  rcases scanRawLines_cases out with hc | hc
  · exact ⟨post, by rw [hc, e]⟩
  · have hpost : post ≠ [] := by
      intro hp
      rw [e, hp] at hc
      have h1 := congrArg List.getLast? hc
      simp at h1
      exact hl h1
    refine ⟨post.dropLast, ?_⟩
    have h1 := congrArg List.dropLast hc
    rw [List.dropLast_concat, e] at h1
    rw [← h1, List.dropLast_append_of_ne_nil _ (by simp), List.dropLast_cons_of_ne_nil hpost]

/-- C8, amended: when the policy command succeeds with output `out`,
`getCandidateVersion` returns normally. If a line of `out` begins, once trimmed,
with `Candidate:`, and neither the first such line nor a line before it reaches
the scanner's limit of 64 KiB, the result is the trimmed text after `Candidate:`
on that first line, without error, also when that text is empty. Every result
without error has this form; and when no line of `out` begins with `Candidate:`
once trimmed, the result is an error. -/
theorem getCandidateVersion_result (env : Env) (info : DebFileNameInfo) (out : GoString)
    (ho : env.cmdOutput [env.binAptCache, "policy".toList, "--".toList,
      info.name ++ ":".toList ++ info.arch] = (out, none)) :
    (∃ r, getCandidateVersion env (some info) = Run.ret r) ∧
    (∀ pre l post, stringsSplit '\n' out = pre ++ l :: post →
      (∀ x ∈ pre, stringsHasPrefix (stringsTrimSpace x) candidate = false) →
      stringsHasPrefix (stringsTrimSpace l) candidate = true →
      (∀ x ∈ pre, utf8Len x < maxScanTokenSize) → utf8Len l < maxScanTokenSize →
      getCandidateVersion env (some info) =
        Run.ret (stringsTrimSpace ((stringsTrimSpace l).drop candidate.length), none)) ∧
    (∀ v, getCandidateVersion env (some info) = Run.ret (v, none) →
      ∃ pre l post, stringsSplit '\n' out = pre ++ l :: post ∧
        (∀ x ∈ pre, stringsHasPrefix (stringsTrimSpace x) candidate = false) ∧
        stringsHasPrefix (stringsTrimSpace l) candidate = true ∧
        (∀ x ∈ pre, utf8Len x < maxScanTokenSize) ∧ utf8Len l < maxScanTokenSize ∧
        v = stringsTrimSpace ((stringsTrimSpace l).drop candidate.length)) ∧
    ((∀ l ∈ stringsSplit '\n' out, stringsHasPrefix (stringsTrimSpace l) candidate = false) →
      ∃ e, getCandidateVersion env (some info) = Run.ret ([], some e)) := by
  have hg : getCandidateVersion env (some info) = Run.ret (candidateScan (scanRawLines out)) := by
    unfold getCandidateVersion
    dsimp only
    rw [ho]
  refine ⟨⟨_, hg⟩, ?_, ?_, ?_⟩
  · intro pre l post e hpre hl hlen hllen
    have hne : l ≠ [] := by
      intro h0
      rw [h0] at hl
      exact absurd hl (by decide)
    obtain ⟨post', e'⟩ := scanRawLines_decompose out pre l post e hne
    rw [hg, e', candidateScan_first pre l post' hpre hl hlen hllen]
  · intro v hv
    rw [hg] at hv
    have hs : candidateScan (scanRawLines out) = (v, none) := by
      injection hv
    obtain ⟨pre, l, post, e, hpre, hl, hlen, hllen, hv'⟩ := candidateScan_ok _ _ hs
    rcases scanRawLines_cases out with hc | hc
    · exact ⟨pre, l, post, by rw [← hc, e], hpre, hl, hlen, hllen, hv'⟩
    · exact ⟨pre, l, post ++ [[]], by rw [hc, e]; simp, hpre, hl, hlen, hllen, hv'⟩
  · intro hall
    have hall' : ∀ x ∈ scanRawLines out,
        stringsHasPrefix (stringsTrimSpace x) candidate = false := by
      intro x hx
      rcases scanRawLines_cases out with hc | hc
      · exact hall x (by rw [← hc]; exact hx)
      · exact hall x (by rw [hc]; exact List.mem_append_left _ hx)
    obtain ⟨e, he⟩ := candidateScan_error _ hall'
    exact ⟨e, by rw [hg, he]⟩

theorem getCandidateVersion_result_witness :
    getCandidateVersion (sampleEnv "1.0".toList (samplePolicy "3.0") true 0)
        (some { name := "foo".toList, version := "2.0".toList, arch := "amd64".toList }) =
      Run.ret ("3.0".toList, none) :=
  (getCandidateVersion_result (sampleEnv "1.0".toList (samplePolicy "3.0") true 0)
    { name := "foo".toList, version := "2.0".toList, arch := "amd64".toList }
    (samplePolicy "3.0") (by decide)).2.1
    ["foo:".toList, "  Installed: 1.0".toList] "  Candidate: 3.0".toList
    ["  Version table:".toList, []]
    (by decide) (by decide) (by decide) (by decide) (by decide)

/-! ## Cache directory -/

/-- Reading one of the three keys after one more line of the output. -/
theorem archivesStep_get (m : GoMap) (line key : GoString)
    (hk : key = "Dir".toList ∨ key = "Dir::Cache".toList ∨ key = "Dir::Cache::archives".toList) :
    archivesStep m line key =
      if (decide ('=' ∈ line) && (line.takeWhile (fun c => c != '=') == key)) = true then
        (line.dropWhile (fun c => c != '=')).drop 1
      else m key := by
  unfold archivesStep stringsSplitN2
  by_cases hm : '=' ∈ line
  · rw [if_pos hm]
    dsimp only
    by_cases he : line.takeWhile (fun c => c != '=') = key
    · rw [if_pos (by rw [he]; exact hk)]
      simp [GoMap.set, hm, he]
    · have he' : ¬ key = line.takeWhile (fun c => c != '=') := fun e => he e.symm
      split_ifs <;> simp_all [GoMap.set]
  · rw [if_neg hm]
    simp [hm]

theorem archivesFold_get (lines : List GoString) (key : GoString)
    (hk : key = "Dir".toList ∨ key = "Dir::Cache".toList ∨ key = "Dir::Cache::archives".toList) :
    lines.foldl archivesStep (fun _ => []) key =
      match lines.reverse.find?
          (fun line => decide ('=' ∈ line) && (line.takeWhile (fun c => c != '=') == key)) with
      | some line => (line.dropWhile (fun c => c != '=')).drop 1
      | none => [] := by
  induction lines using List.reverseRecOn with
  | nil => rfl
  | append_singleton ls l ih =>
    rw [List.foldl_append, List.foldl_cons, List.foldl_nil, archivesStep_get _ _ _ hk,
      List.reverse_append, List.reverse_singleton, List.singleton_append, List.find?_cons]
    by_cases hp : (decide ('=' ∈ l) && (l.takeWhile (fun c => c != '=') == key)) = true
    · rw [if_pos hp, hp]
    · have hp' : (decide ('=' ∈ l) && (l.takeWhile (fun c => c != '=') == key)) = false := by
        simpa using hp
      rw [if_neg hp, hp', ih]

theorem archivesMap_eq_spec (out key : GoString)
    (hk : key = "Dir".toList ∨ key = "Dir::Cache".toList ∨ key = "Dir::Cache::archives".toList) :
    (stringsSplit '\n' out).foldl archivesStep (fun _ => []) key = specKeyValue key out := by
  rw [archivesFold_get _ _ hk]
  rfl

/-- C10: when the `apt-config` command succeeds with output `out`, `getArchivesDir`
returns an error exactly when the value of `Dir`, `Dir::Cache` or
`Dir::Cache::archives` in `out` is empty or missing, and otherwise returns the
path join of the three values in that order, without error. -/
theorem getArchivesDir_spec (env : Env) (out : GoString)
    (ho : env.cmdOutput [env.binAptConfig, "--format".toList, "%f=%v%n".toList, "dump".toList,
      "Dir".toList] = (out, none)) :
    ((getArchivesDir env).2 ≠ none ↔
      (specKeyValue "Dir".toList out = [] ∨ specKeyValue "Dir::Cache".toList out = [] ∨
        specKeyValue "Dir::Cache::archives".toList out = [])) ∧
    (¬ (specKeyValue "Dir".toList out = [] ∨ specKeyValue "Dir::Cache".toList out = [] ∨
        specKeyValue "Dir::Cache::archives".toList out = []) →
      getArchivesDir env =
        (filepathJoin [specKeyValue "Dir".toList out, specKeyValue "Dir::Cache".toList out,
          specKeyValue "Dir::Cache::archives".toList out], none)) := by
  have h1 := archivesMap_eq_spec out "Dir".toList (Or.inl rfl)
  have h2 := archivesMap_eq_spec out "Dir::Cache".toList (Or.inr (Or.inl rfl))
  have h3 := archivesMap_eq_spec out "Dir::Cache::archives".toList (Or.inr (Or.inr rfl))
  unfold getArchivesDir
  rw [ho]
  dsimp only
  rw [h1, h2, h3]
  generalize specKeyValue "Dir".toList out = d
  generalize specKeyValue "Dir::Cache".toList out = c
  generalize specKeyValue "Dir::Cache::archives".toList out = a
  by_cases hd : d = []
  · simp [hd]
  · by_cases hc : c = []
    · simp [hd, hc]
    · by_cases ha : a = []
      · simp [hd, hc, ha]
      · simp [hd, hc, ha]

theorem getArchivesDir_spec_witness :
    ((getArchivesDir (sampleEnv [] [] true 0)).2 ≠ none ↔
      (specKeyValue "Dir".toList sampleAptConfig = [] ∨
        specKeyValue "Dir::Cache".toList sampleAptConfig = [] ∨
        specKeyValue "Dir::Cache::archives".toList sampleAptConfig = [])) ∧
    (¬ (specKeyValue "Dir".toList sampleAptConfig = [] ∨
        specKeyValue "Dir::Cache".toList sampleAptConfig = [] ∨
        specKeyValue "Dir::Cache::archives".toList sampleAptConfig = []) →
      getArchivesDir (sampleEnv [] [] true 0) =
        (filepathJoin [specKeyValue "Dir".toList sampleAptConfig,
          specKeyValue "Dir::Cache".toList sampleAptConfig,
          specKeyValue "Dir::Cache::archives".toList sampleAptConfig], none)) :=
  getArchivesDir_spec (sampleEnv [] [] true 0) sampleAptConfig (by decide)

/-! ## Scenarios of the specification -/

example : getDebFileNameInfo "foo_2.0_amd64.deb".toList =
    some ⟨"foo".toList, "2.0".toList, "amd64".toList⟩ := by decide
example : getDebFileNameInfo "malformed.deb".toList = none := by decide
example : getDebFileNameInfo "a__b.deb".toList = none := by decide
example : stringsTrimSpace " \t ab c\r\n".toList = "ab c".toList := by decide
example : getArchivesDir (sampleEnv [] [] true 0) = ("/var/cache/apt/archives".toList, none) := by
  decide
example : shouldDelete (sampleEnv "1.0".toList (samplePolicy "2.0") true 0)
    (sampleFile "foo_2.0_amd64.deb" 0) = Run.ret (false, none) := by decide
example : shouldDelete (sampleEnv "1.0".toList (samplePolicy "3.0") true 0)
    (sampleFile "foo_2.0_amd64.deb" 0) = Run.ret (true, none) := by decide
example : shouldDelete (sampleEnv "1.0".toList (samplePolicy "3.0") false 0)
    (sampleFile "foo_1.0_amd64.deb" 0) = Run.ret (true, none) := by decide
example : shouldDelete (sampleEnv [] [] false (7 * 86400 * 1000000000))
    (sampleFile "bar_1.0_amd64.deb" 0) = Run.ret (true, none) := by decide
example : shouldDelete (sampleEnv [] [] false (3600 * 1000000000))
    (sampleFile "bar_1.0_amd64.deb" 0) = Run.ret (false, none) := by decide
example : shouldDelete (sampleEnv [] [] false 0) (sampleFile "malformed.deb" 0) = Run.panic := by
  decide
example : filepathExt "a/b.c/foo_1.deb".toList = ".deb".toList := by decide
example : filepathClean "/a/../../b/./c//".toList = "/b/c".toList := by decide
example : filepathClean "../a/../../b".toList = "../../b".toList := by decide

end LastoreAptClean
